import Mathlib

/-!
Verification of the extraction + validation engine of `crates/libm-analyze`
(file `src/crates/libm-analyze/src/lib.rs`).  The engine scans parsed source
files for public functions, validates each candidate signature against a fixed
rule set, categorizes it by identifier, and emits one record per validated
signature for downstream generators.

The embedding models the per-candidate data that the source inspects (the
fields of `syn::ItemFn` it destructures, and the shapes of `syn::Type` that
`valid_ty` distinguishes).  Panics of the source (a failed `assert!`, an
`unwrap` on `None`) are modelled by `Option`: `none` is a panic, which aborts
the whole run.  Diagnostics are modelled with the analyze feature enabled, as
the message strings the source prints; formatted token renderings appended by
`format!` are abstracted to the static message prefix.
-/

set_option maxHeartbeats 1000000

namespace Glibm

/-- The shapes of `syn::Type` that `valid_ty` (lib.rs lines 274-305)
distinguishes: a path type with a qualified-self flag and its segment
identifiers, a raw pointer with its `const`/`mut` tokens and pointee, and
every other shape (arrays, slices, references, tuples, ...), which the
source lumps into the catch-all arm. -/
inductive SynType : Type where
| path (qself : Bool) (segments : List String)
| ptr (constTok : Bool) (mutTok : Bool) (elem : SynType)
| other
deriving DecidableEq

/-- The whitelist match of lib.rs lines 297-301. -/
def isWhitelisted (s : String) : Bool :=
  match s with
  | "i8" | "i16" | "i32" | "i64" | "isize"
  | "u8" | "u16" | "u32" | "u64" | "usize"
  | "f32" | "f64" => true
  | _ => false

/-- `valid_ty` (lib.rs lines 274-305).  `none` models a panic: the source
asserts that a pointer is not both const and mut (line 279), that a path has
no qualified self (line 287), and that it has exactly one segment (line 288).
A pointer recurses only into a path pointee; any other pointee (a second
pointer level included) is invalid (lines 280-284). -/
def valid_ty : SynType → Option Bool
| .ptr c m elem =>
  if c && m then none
  else
    match elem with
    | .path _ _ => valid_ty elem
    | _ => some false
| .path q segs =>
  if q then none
  else
    match segs with
    | [s] => some (isWhitelisted s)
    | _ => none
| .other => some false

/-- A function argument as `get_functions` matches it (lines 244-254): a
captured argument with its type, or any other `syn::FnArg` shape (receivers
and inferred arguments), which always errors. -/
inductive FnArg : Type where
| captured (ty : SynType)
| other
deriving DecidableEq

/-- Item visibility: `get_functions` only matches `Visibility::Public`
(line 117); everything else is skipped silently. -/
inductive Visibility : Type where
| pub
| other
deriving DecidableEq

/-- The fields of `syn::ItemFn` that `get_functions` destructures
(lines 116-126 and 189-196): qualifier flags, rendered attribute strings,
the optional ABI with its optional literal name, the generic-parameter
counts, variadic flag, the arguments and the optional return type
(`none` is `ReturnType::Default`). -/
structure ItemFn : Type where
  vis : Visibility
  ident : String
  constness : Bool
  asyncness : Bool
  unsafety : Bool
  attrs : List String
  abi : Option (Option String)
  typeParams : Nat
  lifetimes : Nat
  constParams : Nat
  variadic : Bool
  inputs : List FnArg
  output : Option SynType
deriving DecidableEq

/-- A top-level item: a function item, or anything else (skipped, line 116). -/
inductive Item : Type where
| fn (f : ItemFn)
| other
deriving DecidableEq

/-- `FnSig` (lib.rs lines 83-90): the signature record built per candidate
and pushed into the catalog when validation passes. -/
structure FnSig : Type where
  ident : String
  api_kind : String
  c_abi : Bool
  ret_ty : Option SynType
  arg_tys : List SynType
deriving DecidableEq

/-- Rust `String::replacen` with a `char` pattern and count 1: replace the
first occurrence of `c` in `s` by `r` (used at lib.rs line 322). -/
def replacen1 (s : List Char) (c : Char) (r : List Char) : List Char :=
  match s with
  | [] => []
  | x :: xs => if x = c then r ++ xs else x :: replacen1 xs c r

/-- `to_api_kind` (lib.rs lines 317-324): take the first character of the
identifier (`none` models the `unwrap` panic when the identifier is empty),
uppercase it (`char::to_uppercase` modelled by `Char.toUpper`; the
identifiers here are ASCII), and replace its first occurrence - which is the
first character - once. -/
def to_api_kind (id : String) : Option String :=
  match id.data with
  | [] => none
  | first :: _ => some (String.mk (replacen1 id.data first [first.toUpper]))

/-- `c_abi` (lib.rs lines 155-163): set exactly when the item carries an
explicit ABI with literal name "C". -/
def c_abi (f : ItemFn) : Bool :=
  match f.abi with
  | some (some l) => l == "C"
  | _ => false

def msgNotExternC : String := "not `extern \"C\"`"

def msgIsConst : String := "is const"

def msgIsAsync : String := "is async"

def msgUnsafety : String := "is unsafe"

def msgVariadic : String := "contains variadic arguments"

def msgGenericParams : String := "contains generic parameters"

def msgLifetimeParams : String := "contains lifetime parameters"

def msgConstParams : String := "contains const parameters"

def msgMissingBoth : String := "missing `#[inline]` and `#[no_panic]` attributes"

def msgMissingInline : String := "missing `#[inline]` attribute"

def msgMissingNoPanic : String := "missing `#[no_panic]` attributes"

def msgBadRet : String := "returns unsupported type"

def msgBadArg : String := "takes unsupported argument type"

/-- ABI rule (lines 164-168). -/
def abiMsgs (f : ItemFn) : List String :=
  if c_abi f then [] else [msgNotExternC]

/-- const rule (lines 169-174). -/
def constMsgs (f : ItemFn) : List String :=
  if f.constness then [msgIsConst] else []

/-- async rule (lines 175-178). -/
def asyncMsgs (f : ItemFn) : List String :=
  if f.asyncness then [msgIsAsync] else []

/-- The unsafe-qualifier rule (lines 179-188).  The diagnostic is printed,
but the source saves the error flag before `err!` and restores it after
(`let e2 = e; ...; e = e2;`), so this rule never contributes to exclusion. -/
def unsafetyMsgs (f : ItemFn) : List String :=
  if f.unsafety then [msgUnsafety] else []

/-- variadic rule (lines 199-204). -/
def variadicMsgs (f : ItemFn) : List String :=
  if f.variadic then [msgVariadic] else []

/-- generic type-parameter rule (lines 205-210). -/
def genericMsgs (f : ItemFn) : List String :=
  if f.typeParams != 0 then [msgGenericParams] else []

/-- lifetime-parameter rule (lines 211-216). -/
def lifetimeMsgs (f : ItemFn) : List String :=
  if f.lifetimes != 0 then [msgLifetimeParams] else []

/-- const-parameter rule (lines 217-222). -/
def constParamMsgs (f : ItemFn) : List String :=
  if f.constParams != 0 then [msgConstParams] else []

/-- Substring containment over character lists (Rust `str::contains`):
`pat` occurs contiguously in `hay`. -/
def containsSub (hay pat : List Char) : Bool :=
  match hay with
  | [] => pat.isEmpty
  | _ :: tl => pat.isPrefixOf hay || containsSub tl pat

/-- Whether the rendered attribute text, joined with commas (lines 226-230),
contains `marker` as a substring (Rust `str::contains`). -/
def attrsContain (attrs : List String) (marker : String) : Bool :=
  containsSub (String.intercalate "," attrs).data marker.data

/-- Attribute rules (lines 223-237): an empty attribute list records one
combined diagnostic; otherwise the joined rendered text is checked for an
"inline" and a "no_panic" substring separately. -/
def attrMsgs (f : ItemFn) : List String :=
  if f.attrs.isEmpty then [msgMissingBoth]
  else
    (if attrsContain f.attrs "inline" then [] else [msgMissingInline]) ++
    (if attrsContain f.attrs "no_panic" then [] else [msgMissingNoPanic])

/-- Return-type check (lines 239-243): no return type is fine; a valid type
is kept as `ret_ty`; an invalid one records a diagnostic.  `none` propagates
a `valid_ty` panic. -/
def retPart : Option SynType → Option (List String × Option SynType)
| none => some ([], none)
| some t =>
  match valid_ty t with
  | none => none
  | some true => some ([], some t)
  | some false => some ([msgBadRet], none)

/-- Argument checks (lines 244-254), in argument order: a captured argument
with a valid type is collected into `arg_tys`; every other argument records
a diagnostic.  `none` propagates a `valid_ty` panic. -/
def argsCheck : List FnArg → Option (List String × List SynType)
| [] => some ([], [])
| .captured t :: rest =>
  match valid_ty t with
  | none => none
  | some v =>
    match argsCheck rest with
    | none => none
    | some (ms, tys) =>
      if v then some (ms, t :: tys) else some (msgBadArg :: ms, tys)
| .other :: rest =>
  match argsCheck rest with
  | none => none
  | some (ms, tys) => some (msgBadArg :: ms, tys)

/-- All diagnostics of one candidate, in the order the source emits them. -/
def ruleMsgs (f : ItemFn) (retM argM : List String) : List String :=
  abiMsgs f ++ constMsgs f ++ asyncMsgs f ++ unsafetyMsgs f ++ variadicMsgs f ++
  genericMsgs f ++ lifetimeMsgs f ++ constParamMsgs f ++ attrMsgs f ++ retM ++ argM

/-- The diagnostics that set the error flag `e`: every rule except the
unsafe-qualifier one, whose assignment to `e` is undone (lines 184-188). -/
def exclusionMsgs (f : ItemFn) (retM argM : List String) : List String :=
  abiMsgs f ++ constMsgs f ++ asyncMsgs f ++ variadicMsgs f ++
  genericMsgs f ++ lifetimeMsgs f ++ constParamMsgs f ++ attrMsgs f ++ retM ++ argM

/-- The ignore test (lines 136-141): with `Some` set, skip the candidate when
the set contains its name; with `None`, never skip. -/
def ignoredHas : Option (List String) → String → Bool
| some l, name => l.contains name
| none, _ => false

/-- One candidate's pass through `get_functions`'s loop body (lines 128-262):
build `api_kind` first (line 131, may panic), then skip an ignored candidate
before any rule runs (lines 136-141), then run every rule, and finally push
the signature exactly when the error flag stayed unset (lines 255-262).
The result pairs the optional catalog entry with the diagnostics. -/
def processFn (f : ItemFn) (ign : Option (List String)) :
    Option (Option FnSig × List String) :=
  match to_api_kind f.ident with
  | none => none
  | some api_kind =>
    if ignoredHas ign f.ident then some (none, [])
    else
      match retPart f.output, argsCheck f.inputs with
      | some rp, some ap =>
        if (exclusionMsgs f rp.1 ap.1).isEmpty then
          some (some ⟨f.ident, api_kind, c_abi f, rp.2, ap.2⟩, ruleMsgs f rp.1 ap.1)
        else some (none, ruleMsgs f rp.1 ap.1)
      | _, _ => none

/-- One item of a file (lines 114-126): only public function items are
processed; other items, and non-public functions, are skipped silently.
Diagnostics are tagged with the candidate's identifier, as in the printed
line `[error]: Function "<name>" <reason>` (line 146). -/
def processItem (ign : Option (List String)) :
    Item → Option (List FnSig × List (String × String))
| .fn f =>
  match f.vis with
  | .pub =>
    match processFn f ign with
    | none => none
    | some (sigOpt, msgs) => some (sigOpt.toList, msgs.map (fun m => (f.ident, m)))
  | .other => some ([], [])
| .other => some ([], [])

/-- `get_functions` (lib.rs lines 110-270) over the flattened item list of
all files, in discovery order: the catalog of passing signatures plus all
diagnostics; `none` when any candidate panics.  The strict-failure attempt at
lines 265-268 is commented out in the source, so errors never halt the run. -/
def get_functions (items : List Item) (ign : Option (List String)) :
    Option (List FnSig × List (String × String)) :=
  match items with
  | [] => some ([], [])
  | it :: rest =>
    match processItem ign it, get_functions rest ign with
    | some r, some rs => some (r.1 ++ rs.1, r.2 ++ rs.2)
    | _, _ => none

/-- The record `for_each_api` (lib.rs lines 15-41) expands per catalog
entry: identifier, category tag, argument types, synthesized argument names
and the optional return type. -/
structure ApiRecord : Type where
  id : String
  api_kind : String
  arg_tys : List SynType
  arg_ids : List String
  ret_ty : Option SynType
deriving DecidableEq

/-- `get_arg_ids` (lib.rs lines 307-315): the names `x0`, `x1`, ... `x(len-1)`. -/
def get_arg_ids (len : Nat) : List String :=
  (List.range len).map (fun i => "x" ++ toString i)

/-- The emission loop of `for_each_api` (lib.rs lines 22-39): one record per
signature, in catalog order, fields copied verbatim, names synthesized from
the argument count. -/
def for_each_api_records (functions : List FnSig) : List ApiRecord :=
  functions.map (fun f =>
    ⟨f.ident, f.api_kind, f.arg_tys, get_arg_ids f.arg_tys.length, f.ret_ty⟩)

/-- Rust `str::split(',')` over a character list: the pieces between commas,
in order; the empty string yields one empty piece, and nothing is trimmed. -/
def splitComma : List Char → List (List Char)
| [] => [[]]
| c :: rest =>
  match splitComma rest with
  | [] => [[]]
  | cur :: done => if c = ',' then [] :: cur :: done else (c :: cur) :: done

/-- The ignore-set parse of `Input::parse` (lib.rs lines 332-360): the
string literal's value is split on the comma character only, each piece
inserted as-is (membership below is list membership, matching the hash-set
membership of the source). -/
def parse_ignored (s : String) : List String :=
  (splitComma s.data).map String.mk

/-- Spec-side shape predicate (spec section 4.5), written from the spec's
words for the refinement statement of claim C2: a whitelisted primitive, or
a pointer with exactly one level of indirection to a whitelisted primitive. -/
def goodShape : SynType → Bool
| .path false [s] => isWhitelisted s
| .ptr _ _ (.path false [s]) => isWhitelisted s
| _ => false

/-- The exact conditions under which `valid_ty` hits one of its assertions
(and hence panics): a qualified-self or multi-segment path, directly or as
the pointee of one pointer, or a pointer marked both const and mut. -/
def assertViolation : SynType → Bool
| .path q segs => q || segs.length != 1
| .ptr c m elem =>
  (c && m) ||
  (match elem with
   | .path q segs => q || segs.length != 1
   | _ => false)
| .other => false

/-- Whether an argument makes the argument rule fire (lines 244-254): a
captured argument whose type is classified invalid, or any non-captured
argument shape. -/
def badArg : FnArg → Bool
| .captured t =>
  match valid_ty t with
  | some false => true
  | _ => false
| .other => true

/-- The primitive `f64` as a type node. -/
def f64Ty : SynType := .path false ["f64"]

/-- A candidate that passes every rule: public, `extern "C"`, no qualifiers,
`#[inline]` and `#[no_panic]` attributes, `f64 -> f64`. -/
def goodFn (name : String) : ItemFn :=
  { vis := .pub, ident := name, constness := false, asyncness := false,
    unsafety := false, attrs := ["#[inline]", "#[no_panic]"],
    abi := some (some "C"), typeParams := 0, lifetimes := 0, constParams := 0,
    variadic := false, inputs := [.captured f64Ty], output := some f64Ty }

/-- The catalog entry a passing `goodFn name` yields. -/
def goodSig (name kind : String) : FnSig :=
  ⟨name, kind, true, some f64Ty, [f64Ty]⟩

/-- `goodFn "cbrt"` with the unsafe qualifier added. -/
def cbrtUnsafeFn : ItemFn := { goodFn "cbrt" with unsafety := true }

/-- `goodFn "round"` with the unsafe qualifier added. -/
def roundUnsafeFn : ItemFn := { goodFn "round" with unsafety := true }

/-- `goodFn "ceil"` with an empty attribute list. -/
def ceilNoAttrFn : ItemFn := { goodFn "ceil" with attrs := [] }

/-- `goodFn "ln"` with an empty attribute list. -/
def lnNoAttrFn : ItemFn := { goodFn "ln" with attrs := [] }

/-- A candidate violating every rule at once: not `extern "C"`, const, async,
unsafe, variadic, one generic type parameter, one lifetime, one const
parameter, no attributes, a non-whitelisted return type and a non-captured
argument. -/
def multiFailFn : ItemFn :=
  { vis := .pub, ident := "trunc", constness := true, asyncness := true,
    unsafety := true, attrs := [], abi := none, typeParams := 1, lifetimes := 1,
    constParams := 1, variadic := true, inputs := [.other], output := some .other }

end Glibm

namespace Glibm

theorem mem_abiMsgs {f : ItemFn} {m : String} :
    m ∈ abiMsgs f ↔ c_abi f = false ∧ m = msgNotExternC := by
  unfold abiMsgs; split <;> simp_all

theorem mem_constMsgs {f : ItemFn} {m : String} :
    m ∈ constMsgs f ↔ f.constness = true ∧ m = msgIsConst := by
  unfold constMsgs; split <;> simp_all

theorem mem_asyncMsgs {f : ItemFn} {m : String} :
    m ∈ asyncMsgs f ↔ f.asyncness = true ∧ m = msgIsAsync := by
  unfold asyncMsgs; split <;> simp_all

theorem mem_unsafetyMsgs {f : ItemFn} {m : String} :
    m ∈ unsafetyMsgs f ↔ f.unsafety = true ∧ m = msgUnsafety := by
  unfold unsafetyMsgs; split <;> simp_all

theorem mem_variadicMsgs {f : ItemFn} {m : String} :
    m ∈ variadicMsgs f ↔ f.variadic = true ∧ m = msgVariadic := by
  unfold variadicMsgs; split <;> simp_all

theorem mem_genericMsgs {f : ItemFn} {m : String} :
    m ∈ genericMsgs f ↔ f.typeParams ≠ 0 ∧ m = msgGenericParams := by
  unfold genericMsgs; split <;> simp_all

theorem mem_lifetimeMsgs {f : ItemFn} {m : String} :
    m ∈ lifetimeMsgs f ↔ f.lifetimes ≠ 0 ∧ m = msgLifetimeParams := by
  unfold lifetimeMsgs; split <;> simp_all

theorem mem_constParamMsgs {f : ItemFn} {m : String} :
    m ∈ constParamMsgs f ↔ f.constParams ≠ 0 ∧ m = msgConstParams := by
  unfold constParamMsgs; split <;> simp_all

theorem mem_attrMsgs {f : ItemFn} {m : String} :
    m ∈ attrMsgs f ↔
      (f.attrs = [] ∧ m = msgMissingBoth) ∨
      (f.attrs ≠ [] ∧ attrsContain f.attrs "inline" = false ∧ m = msgMissingInline) ∨
      (f.attrs ≠ [] ∧ attrsContain f.attrs "no_panic" = false ∧ m = msgMissingNoPanic) := by
  unfold attrMsgs
  split
  · simp_all [List.isEmpty_iff]
  · rename_i hne
    simp only [List.isEmpty_iff] at hne
    split <;> split <;> simp_all

theorem valid_ty_path_true {q : Bool} {segs : List String}
    (h : valid_ty (.path q segs) = some true) :
    q = false ∧ ∃ s, segs = [s] ∧ isWhitelisted s = true := by
  cases q with
  | true => simp [valid_ty] at h
  | false =>
    match segs, h with
    | [s], h =>
      simp [valid_ty] at h
      exact ⟨rfl, s, rfl, h⟩
    | [], h => simp [valid_ty] at h
    | a :: b :: rest, h => simp [valid_ty] at h

theorem valid_ty_true_shape (t : SynType) (h : valid_ty t = some true) :
    goodShape t = true := by
  cases t with
  | other => simp [valid_ty] at h
  | path q segs =>
    obtain ⟨hq, s, hs, hw⟩ := valid_ty_path_true h
    subst hq; subst hs
    simpa [goodShape] using hw
  | ptr c m elem =>
    cases elem with
    | path q segs =>
      by_cases hcm : (c && m) = true
      · simp [valid_ty, hcm] at h
      · rw [valid_ty] at h
        rw [if_neg hcm] at h
        obtain ⟨hq, s, hs, hw⟩ := valid_ty_path_true h
        subst hq; subst hs
        simpa [goodShape] using hw
    | ptr c2 m2 e2 =>
      by_cases hcm : (c && m) = true <;> simp [valid_ty, hcm] at h
    | other =>
      by_cases hcm : (c && m) = true <;> simp [valid_ty, hcm] at h

theorem retPart_inv {out : Option SynType} {rp : List String × Option SynType}
    (h : retPart out = some rp) :
    (∀ m ∈ rp.1, m = msgBadRet) ∧
    (∀ t, rp.2 = some t → valid_ty t = some true) ∧
    (∀ t, out = some t → valid_ty t = some false → msgBadRet ∈ rp.1) := by
  cases out with
  | none =>
    simp [retPart] at h
    subst h
    simp
  | some t =>
    rw [retPart] at h
    split at h
    · exact absurd h (by simp)
    · rename_i hv
      simp at h
      subst h
      constructor
      · simp
      constructor
      · intro u hu
        simp at hu
        subst hu
        exact hv
      · intro u hu hf
        simp at hu
        subst hu
        rw [hv] at hf
        exact absurd hf (by simp)
    · rename_i hv
      simp at h
      subst h
      simp

theorem argsCheck_inv {inputs : List FnArg} {ap : List String × List SynType}
    (h : argsCheck inputs = some ap) :
    (∀ m ∈ ap.1, m = msgBadArg) ∧
    (∀ t ∈ ap.2, valid_ty t = some true) ∧
    (∀ a ∈ inputs, badArg a = true → msgBadArg ∈ ap.1) := by
  induction inputs generalizing ap with
  | nil =>
    simp [argsCheck] at h
    subst h
    simp
  | cons a rest ih =>
    cases a with
    | captured t =>
      rw [argsCheck] at h
      split at h
      · exact absurd h (by simp)
      · rename_i v hv
        split at h
        · exact absurd h (by simp)
        · rename_i ms tys hrest
          obtain ⟨ih1, ih2, ih3⟩ := ih hrest
          cases v with
          | true =>
            simp at h
            subst h
            refine ⟨ih1, ?_, ?_⟩
            · intro u hu
              simp at hu
              rcases hu with hu | hu
              · subst hu; exact hv
              · exact ih2 u hu
            · intro b hb hbad
              simp at hb
              rcases hb with hb | hb
              · subst hb
                simp [badArg, hv] at hbad
              · exact ih3 b hb hbad
          | false =>
            simp at h
            subst h
            refine ⟨?_, ih2, ?_⟩
            · intro u hu
              simp at hu
              rcases hu with hu | hu
              · exact hu
              · exact ih1 u hu
            · intro b hb hbad
              simp
    | other =>
      rw [argsCheck] at h
      split at h
      · exact absurd h (by simp)
      · rename_i ms tys hrest
        obtain ⟨ih1, ih2, ih3⟩ := ih hrest
        simp at h
        subst h
        refine ⟨?_, ih2, ?_⟩
        · intro u hu
          simp at hu
          rcases hu with hu | hu
          · exact hu
          · exact ih1 u hu
        · intro b hb hbad
          simp

theorem processFn_inv {f : ItemFn} {ign : Option (List String)} {s : Option FnSig}
    {e : List String} (hp : processFn f ign = some (s, e))
    (hni : ignoredHas ign f.ident = false) :
    ∃ k rp ap, to_api_kind f.ident = some k ∧ retPart f.output = some rp ∧
      argsCheck f.inputs = some ap ∧ e = ruleMsgs f rp.1 ap.1 ∧
      ((exclusionMsgs f rp.1 ap.1 = [] ∧
          s = some ⟨f.ident, k, c_abi f, rp.2, ap.2⟩) ∨
        (exclusionMsgs f rp.1 ap.1 ≠ [] ∧ s = none)) := by
  unfold processFn at hp
  split at hp
  · exact absurd hp (by simp)
  · rename_i k hk
    simp only [hni, Bool.false_eq_true, if_false] at hp
    split at hp
    · rename_i rp ap hr ha
      split at hp
      · rename_i hex
        simp only [List.isEmpty_iff] at hex
        simp at hp
        obtain ⟨hs, he⟩ := hp
        exact ⟨k, rp, ap, hk, hr, ha, he.symm, Or.inl ⟨hex, hs.symm⟩⟩
      · rename_i hex
        simp only [List.isEmpty_iff] at hex
        simp at hp
        obtain ⟨hs, he⟩ := hp
        exact ⟨k, rp, ap, hk, hr, ha, he.symm, Or.inr ⟨by simpa using hex, hs.symm⟩⟩
    · rename_i hboth
      exact absurd hp (by simp)

theorem processFn_sig_ident {f : ItemFn} {ign : Option (List String)} {sg : FnSig}
    {e : List String} (hp : processFn f ign = some (some sg, e)) :
    sg.ident = f.ident := by
  unfold processFn at hp
  split at hp
  · exact absurd hp (by simp)
  · split at hp
    · simp at hp
    · split at hp
      · split at hp
        · simp at hp
          rw [← hp.1]
        · simp at hp
      · exact absurd hp (by simp)

theorem processFn_ignored {f : ItemFn} {ign : Option (List String)}
    {r : Option FnSig × List String} (hig : ignoredHas ign f.ident = true)
    (hp : processFn f ign = some r) : r = (none, []) := by
  unfold processFn at hp
  split at hp
  · exact absurd hp (by simp)
  · rw [hig] at hp
    simp at hp
    rw [← hp]

theorem processItem_ne {ign : Option (List String)} {it : Item}
    {r : List FnSig × List (String × String)}
    (h : processItem ign it = some r) (name : String)
    (hname : ignoredHas ign name = true) :
    (∀ sg ∈ r.1, sg.ident ≠ name) ∧ (∀ p ∈ r.2, p.1 ≠ name) := by
  cases it with
  | other =>
    simp [processItem] at h
    rw [← h]
    simp
  | fn f =>
    rw [processItem] at h
    split at h
    · split at h
      · exact absurd h (by simp)
      · rename_i sigOpt msgs hp
        by_cases hig : ignoredHas ign f.ident = true
        · have h2 := processFn_ignored hig hp
          have hs : sigOpt = none := congrArg Prod.fst h2
          have hm : msgs = [] := congrArg Prod.snd h2
          subst hs; subst hm
          simp at h
          rw [← h]
          simp
        · have hne : f.ident ≠ name := by
            intro he
            rw [he] at hig
            exact hig hname
          simp at h
          rw [← h]
          constructor
          · intro sg hsg
            cases sigOpt with
            | none => simp at hsg
            | some sg2 =>
              simp at hsg
              subst hsg
              rw [processFn_sig_ident hp]
              exact hne
          · intro p hpmem
            simp at hpmem
            obtain ⟨m, hm, hpe⟩ := hpmem
            rw [← hpe]
            exact hne
    · simp at h
      rw [← h]
      simp

theorem get_functions_cons (it : Item) (rest : List Item) (ign : Option (List String)) :
    get_functions (it :: rest) ign =
      match processItem ign it, get_functions rest ign with
      | some r, some rs => some (r.1 ++ rs.1, r.2 ++ rs.2)
      | _, _ => none := rfl

theorem to_api_kind_ne_empty {s : String} {k : String}
    (h : to_api_kind s = some k) : s ≠ "" := by
  intro he
  subst he
  simp [to_api_kind] at h

theorem processFn_empty_ignore (f : ItemFn) :
    processFn f (some (parse_ignored "")) = processFn f none := by
  unfold processFn
  cases hk : to_api_kind f.ident with
  | none => rfl
  | some k =>
    have hne : f.ident ≠ "" := to_api_kind_ne_empty hk
    have hig : ignoredHas (some (parse_ignored "")) f.ident = false := by
      show List.contains [""] f.ident = false
      have hb : (f.ident == "") = false := beq_eq_false_iff_ne.mpr hne
      simp [List.contains, List.elem, hb]
    rw [hig]
    rfl

theorem processItem_empty_ignore (it : Item) :
    processItem (some (parse_ignored "")) it = processItem none it := by
  cases it with
  | other => rfl
  | fn f =>
    unfold processItem
    dsimp only
    rw [processFn_empty_ignore f]

theorem processFn_sig_shapes {f : ItemFn} {ign : Option (List String)} {sg : FnSig}
    {e : List String} (hp : processFn f ign = some (some sg, e)) :
    (∀ t ∈ sg.arg_tys, goodShape t = true) ∧
    (∀ t, sg.ret_ty = some t → goodShape t = true) := by
  unfold processFn at hp
  split at hp
  · exact absurd hp (by simp)
  · split at hp
    · simp at hp
    · split at hp
      · rename_i rp ap hr ha
        split at hp
        · simp at hp
          obtain ⟨hs, -⟩ := hp
          rw [← hs]
          constructor
          · intro t ht
            exact valid_ty_true_shape t ((argsCheck_inv ha).2.1 t ht)
          · intro t ht
            exact valid_ty_true_shape t ((retPart_inv hr).2.1 t ht)
        · simp at hp
      · exact absurd hp (by simp)

theorem processItem_shapes {ign : Option (List String)} {it : Item}
    {r : List FnSig × List (String × String)}
    (h : processItem ign it = some r) :
    ∀ sg ∈ r.1, (∀ t ∈ sg.arg_tys, goodShape t = true) ∧
      (∀ t, sg.ret_ty = some t → goodShape t = true) := by
  cases it with
  | other =>
    simp [processItem] at h
    rw [← h]
    simp
  | fn f =>
    rw [processItem] at h
    split at h
    · split at h
      · exact absurd h (by simp)
      · rename_i sigOpt msgs hp
        simp at h
        rw [← h]
        intro sg hsg
        cases sigOpt with
        | none => simp at hsg
        | some sg2 =>
          simp at hsg
          subst hsg
          exact processFn_sig_shapes hp
    · simp at h
      rw [← h]
      simp

theorem msgUnsafety_notin_abi {f : ItemFn} : msgUnsafety ∉ abiMsgs f :=
  fun hm => absurd (mem_abiMsgs.mp hm).2 (by decide)

theorem msgUnsafety_notin_const {f : ItemFn} : msgUnsafety ∉ constMsgs f :=
  fun hm => absurd (mem_constMsgs.mp hm).2 (by decide)

theorem msgUnsafety_notin_async {f : ItemFn} : msgUnsafety ∉ asyncMsgs f :=
  fun hm => absurd (mem_asyncMsgs.mp hm).2 (by decide)

theorem mem_ruleMsgs {f : ItemFn} {rM aM : List String} {m : String} :
    m ∈ ruleMsgs f rM aM ↔
      m ∈ abiMsgs f ∨ m ∈ constMsgs f ∨ m ∈ asyncMsgs f ∨ m ∈ unsafetyMsgs f ∨
      m ∈ variadicMsgs f ∨ m ∈ genericMsgs f ∨ m ∈ lifetimeMsgs f ∨
      m ∈ constParamMsgs f ∨ m ∈ attrMsgs f ∨ m ∈ rM ∨ m ∈ aM := by
  unfold ruleMsgs
  simp only [List.append_assoc, List.mem_append]

end Glibm

namespace Glibm

/-- C1, counterexample to the claim as stated: `cbrtUnsafeFn` is an
unsafe-qualified public candidate that passes every other rule.  The claim
says no catalog entry with its identifier is emitted; in fact the entry IS
emitted, alongside the recorded is-unsafe diagnostic, because the source
restores the error flag after the unsafe rule (lib.rs lines 184-188). -/
theorem c1_counterexample :
    get_functions [Item.fn cbrtUnsafeFn] none =
      some ([goodSig "cbrt" "Cbrt"], [("cbrt", msgUnsafety)]) := rfl

/-- C1 (amended): an unsafe-qualified candidate that is not ignored and does
not panic records the is-unsafe diagnostic, but is never excluded for being
unsafe: the same candidate with the unsafe qualifier removed yields the very
same catalog outcome, and an error list identical except for the is-unsafe
entry. -/
theorem c1_unsafety_rule_inert (f : ItemFn) (ign : Option (List String))
    (s : Option FnSig) (e : List String) (hu : f.unsafety = true)
    (hni : ignoredHas ign f.ident = false)
    (hp : processFn f ign = some (s, e)) :
    msgUnsafety ∈ e ∧
    processFn { f with unsafety := false } ign = some (s, e.erase msgUnsafety) := by
  obtain ⟨k, rp, ap, hk, hr, ha, he, hcase⟩ := processFn_inv hp hni
  have hmem : msgUnsafety ∈ e := by
    rw [he]
    unfold ruleMsgs
    simp only [List.append_assoc, List.mem_append]
    refine Or.inr (Or.inr (Or.inr (Or.inl ?_)))
    simp [unsafetyMsgs, hu]
  refine ⟨hmem, ?_⟩
  have herase : e.erase msgUnsafety = ruleMsgs { f with unsafety := false } rp.1 ap.1 := by
    rw [he]
    unfold ruleMsgs
    simp only [List.append_assoc]
    rw [List.erase_append_right _ msgUnsafety_notin_abi,
      List.erase_append_right _ msgUnsafety_notin_const,
      List.erase_append_right _ msgUnsafety_notin_async]
    have hun : unsafetyMsgs f = [msgUnsafety] := by simp [unsafetyMsgs, hu]
    rw [hun]
    rw [List.singleton_append, List.erase_cons_head]
    rfl
  rw [herase]
  have hk2 : to_api_kind ({ f with unsafety := false } : ItemFn).ident = some k := hk
  have hni2 : ignoredHas ign ({ f with unsafety := false } : ItemFn).ident = false := hni
  have hr2 : retPart ({ f with unsafety := false } : ItemFn).output = some rp := hr
  have ha2 : argsCheck ({ f with unsafety := false } : ItemFn).inputs = some ap := ha
  unfold processFn
  rw [hk2]
  dsimp only
  rw [hni2]
  simp only [Bool.false_eq_true, if_false]
  rw [hr2, ha2]
  dsimp only
  have hex : exclusionMsgs { f with unsafety := false } rp.1 ap.1 =
      exclusionMsgs f rp.1 ap.1 := rfl
  rcases hcase with ⟨hexe, hs⟩ | ⟨hexe, hs⟩
  · rw [hex, hexe]
    subst hs
    rfl
  · rw [hex]
    have hne : (exclusionMsgs f rp.1 ap.1).isEmpty = false := by
      rw [← Bool.not_eq_true, List.isEmpty_iff]
      exact hexe
    rw [hne]
    subst hs
    rfl

/-- C1, witness: the amended theorem applied to the concrete unsafe `cbrt`
candidate. -/
theorem c1_witness :
    msgUnsafety ∈ [msgUnsafety] ∧
    processFn { cbrtUnsafeFn with unsafety := false } none =
      some (some (goodSig "cbrt" "Cbrt"), List.erase [msgUnsafety] msgUnsafety) :=
  c1_unsafety_rule_inert cbrtUnsafeFn none (some (goodSig "cbrt" "Cbrt"))
    [msgUnsafety] rfl rfl rfl

/-- C2: every entry of an emitted catalog carries only whitelisted primitive
types or single-level pointers to them, in every argument position and in
the return type when present. -/
theorem c2_catalog_types_whitelisted (items : List Item) (ign : Option (List String))
    (fns : List FnSig) (errs : List (String × String))
    (h : get_functions items ign = some (fns, errs)) :
    ∀ sg ∈ fns, (∀ t ∈ sg.arg_tys, goodShape t = true) ∧
      (∀ t, sg.ret_ty = some t → goodShape t = true) := by
  induction items generalizing fns errs with
  | nil =>
    simp [get_functions] at h
    obtain ⟨h1, h2⟩ := h
    subst h1
    simp
  | cons it rest ih =>
    rw [get_functions_cons] at h
    split at h
    · rename_i r rs hr hrs
      simp at h
      obtain ⟨h1, h2⟩ := h
      intro sg hsg
      rw [← h1] at hsg
      rcases List.mem_append.mp hsg with hmem | hmem
      · exact processItem_shapes hr sg hmem
      · exact ih rs.1 rs.2 hrs sg hmem
    · exact absurd h (by simp)

/-- C2, witness: the theorem applied to a run over the single passing `cos`
candidate, concluding for its `f64` return type. -/
theorem c2_witness : goodShape f64Ty = true :=
  (c2_catalog_types_whitelisted [Item.fn (goodFn "cos")] none
    [goodSig "cos" "Cos"] [] rfl (goodSig "cos" "Cos")
    (List.mem_singleton.mpr rfl)).2 f64Ty rfl

/-- C3, counterexample to the claim as stated: on the multi-segment path
`core::ffi::c_int` the check does not classify the type as invalid - it
fails the `assert_eq!` on the segment count (lib.rs line 288), a panic,
modelled by `none`. -/
theorem c3_counterexample :
    valid_ty (SynType.path false ["core", "ffi", "c_int"]) = none := rfl

/-- C3 (amended): the check classifies every non-path, non-pointer shape,
every pointer to a non-path pointee, and every unqualified single-segment
path as valid or invalid per the whitelist; but it panics - rather than
classifying - exactly on qualified-self paths, multi-segment paths (directly
or behind one pointer) and pointers marked both const and mut. -/
theorem c3_valid_ty_totality (t : SynType) :
    (valid_ty t = none ↔ assertViolation t = true) ∧
    (assertViolation t = false → valid_ty t = some (goodShape t)) := by
  cases t with
  | other => simp [valid_ty, assertViolation, goodShape]
  | path q segs =>
    cases q <;> rcases segs with _ | ⟨s, _ | ⟨b, rest⟩⟩ <;>
      simp [valid_ty, assertViolation, goodShape]
  | ptr c m elem =>
    rcases elem with ⟨q, segs⟩ | ⟨c2, m2, e2⟩ | _
    · cases q <;> rcases segs with _ | ⟨s, _ | ⟨b, rest⟩⟩ <;>
        rcases c with _ | _ <;> rcases m with _ | _ <;>
        simp [valid_ty, assertViolation, goodShape]
    · rcases c with _ | _ <;> rcases m with _ | _ <;>
        simp [valid_ty, assertViolation, goodShape]
    · rcases c with _ | _ <;> rcases m with _ | _ <;>
        simp [valid_ty, assertViolation, goodShape]

/-- C3, witness: the amended theorem applied to a single-level pointer to
`f64`, which raises no assertion and is classified. -/
theorem c3_witness :
    valid_ty (SynType.ptr false false (SynType.path false ["f64"])) =
      some (goodShape (SynType.ptr false false (SynType.path false ["f64"]))) :=
  (c3_valid_ty_totality (SynType.ptr false false (SynType.path false ["f64"]))).2 rfl

/-- C4, counterexample to the claim as stated: a candidate with an empty
attribute list records exactly ONE diagnostic, the combined message, which
is neither the separate missing-inline message nor the separate
missing-no-panic message - not two errors as the claim requires. -/
theorem c4_counterexample :
    processFn ceilNoAttrFn none = some (none, [msgMissingBoth]) ∧
    msgMissingBoth ≠ msgMissingInline ∧ msgMissingBoth ≠ msgMissingNoPanic :=
  ⟨rfl, by decide, by decide⟩

/-- C4 (amended): for a candidate that is not ignored and does not panic,
every rule is evaluated and every violated rule records its message - ABI,
const, async, unsafe, variadic, the three generic-parameter rules, the
attribute rules, the return-type rule and the argument rule - except that an
empty attribute list records a single combined message (counted exactly
once) instead of the two separate marker errors. -/
theorem c4_rules_not_short_circuited (f : ItemFn) (ign : Option (List String))
    (s : Option FnSig) (e : List String)
    (hni : ignoredHas ign f.ident = false)
    (hp : processFn f ign = some (s, e)) :
    (c_abi f = false → msgNotExternC ∈ e) ∧
    (f.constness = true → msgIsConst ∈ e) ∧
    (f.asyncness = true → msgIsAsync ∈ e) ∧
    (f.unsafety = true → msgUnsafety ∈ e) ∧
    (f.variadic = true → msgVariadic ∈ e) ∧
    (f.typeParams ≠ 0 → msgGenericParams ∈ e) ∧
    (f.lifetimes ≠ 0 → msgLifetimeParams ∈ e) ∧
    (f.constParams ≠ 0 → msgConstParams ∈ e) ∧
    (f.attrs = [] → e.count msgMissingBoth = 1 ∧
      msgMissingInline ∉ e ∧ msgMissingNoPanic ∉ e) ∧
    (f.attrs ≠ [] → attrsContain f.attrs "inline" = false → msgMissingInline ∈ e) ∧
    (f.attrs ≠ [] → attrsContain f.attrs "no_panic" = false → msgMissingNoPanic ∈ e) ∧
    (∀ t, f.output = some t → valid_ty t = some false → msgBadRet ∈ e) ∧
    (∀ a ∈ f.inputs, badArg a = true → msgBadArg ∈ e) := by
  obtain ⟨k, rp, ap, hk, hr, ha, he, -⟩ := processFn_inv hp hni
  subst he
  refine ⟨?_, ?_, ?_, ?_, ?_, ?_, ?_, ?_, ?_, ?_, ?_, ?_, ?_⟩
  · intro h
    exact mem_ruleMsgs.mpr (Or.inl (mem_abiMsgs.mpr ⟨h, rfl⟩))
  · intro h
    exact mem_ruleMsgs.mpr (Or.inr (Or.inl (mem_constMsgs.mpr ⟨h, rfl⟩)))
  · intro h
    exact mem_ruleMsgs.mpr (Or.inr (Or.inr (Or.inl (mem_asyncMsgs.mpr ⟨h, rfl⟩))))
  · intro h
    exact mem_ruleMsgs.mpr (Or.inr (Or.inr (Or.inr (Or.inl
      (mem_unsafetyMsgs.mpr ⟨h, rfl⟩)))))
  · intro h
    exact mem_ruleMsgs.mpr (Or.inr (Or.inr (Or.inr (Or.inr (Or.inl
      (mem_variadicMsgs.mpr ⟨h, rfl⟩))))))
  · intro h
    exact mem_ruleMsgs.mpr (Or.inr (Or.inr (Or.inr (Or.inr (Or.inr (Or.inl
      (mem_genericMsgs.mpr ⟨h, rfl⟩)))))))
  · intro h
    exact mem_ruleMsgs.mpr (Or.inr (Or.inr (Or.inr (Or.inr (Or.inr (Or.inr (Or.inl
      (mem_lifetimeMsgs.mpr ⟨h, rfl⟩))))))))
  · intro h
    exact mem_ruleMsgs.mpr (Or.inr (Or.inr (Or.inr (Or.inr (Or.inr (Or.inr (Or.inr
      (Or.inl (mem_constParamMsgs.mpr ⟨h, rfl⟩)))))))))
  · intro hattrs
    refine ⟨?_, ?_, ?_⟩
    · have cabi : (abiMsgs f).count msgMissingBoth = 0 :=
        List.count_eq_zero.mpr (fun hm => absurd (mem_abiMsgs.mp hm).2 (by decide))
      have cconst : (constMsgs f).count msgMissingBoth = 0 :=
        List.count_eq_zero.mpr (fun hm => absurd (mem_constMsgs.mp hm).2 (by decide))
      have casync : (asyncMsgs f).count msgMissingBoth = 0 :=
        List.count_eq_zero.mpr (fun hm => absurd (mem_asyncMsgs.mp hm).2 (by decide))
      have cuns : (unsafetyMsgs f).count msgMissingBoth = 0 :=
        List.count_eq_zero.mpr (fun hm => absurd (mem_unsafetyMsgs.mp hm).2 (by decide))
      have cvar : (variadicMsgs f).count msgMissingBoth = 0 :=
        List.count_eq_zero.mpr (fun hm => absurd (mem_variadicMsgs.mp hm).2 (by decide))
      have cgen : (genericMsgs f).count msgMissingBoth = 0 :=
        List.count_eq_zero.mpr (fun hm => absurd (mem_genericMsgs.mp hm).2 (by decide))
      have clt : (lifetimeMsgs f).count msgMissingBoth = 0 :=
        List.count_eq_zero.mpr (fun hm => absurd (mem_lifetimeMsgs.mp hm).2 (by decide))
      have ccp : (constParamMsgs f).count msgMissingBoth = 0 :=
        List.count_eq_zero.mpr (fun hm => absurd (mem_constParamMsgs.mp hm).2 (by decide))
      have cattr : (attrMsgs f).count msgMissingBoth = 1 := by
        simp [attrMsgs, hattrs]
      have cret : rp.1.count msgMissingBoth = 0 :=
        List.count_eq_zero.mpr
          (fun hm => absurd ((retPart_inv hr).1 _ hm) (by decide))
      have carg : ap.1.count msgMissingBoth = 0 :=
        List.count_eq_zero.mpr
          (fun hm => absurd ((argsCheck_inv ha).1 _ hm) (by decide))
      unfold ruleMsgs
      simp only [List.append_assoc, List.count_append, cabi, cconst, casync, cuns,
        cvar, cgen, clt, ccp, cattr, cret, carg]
    · intro hm
      rcases mem_ruleMsgs.mp hm with h|h|h|h|h|h|h|h|h|h|h
      · exact absurd (mem_abiMsgs.mp h).2 (by decide)
      · exact absurd (mem_constMsgs.mp h).2 (by decide)
      · exact absurd (mem_asyncMsgs.mp h).2 (by decide)
      · exact absurd (mem_unsafetyMsgs.mp h).2 (by decide)
      · exact absurd (mem_variadicMsgs.mp h).2 (by decide)
      · exact absurd (mem_genericMsgs.mp h).2 (by decide)
      · exact absurd (mem_lifetimeMsgs.mp h).2 (by decide)
      · exact absurd (mem_constParamMsgs.mp h).2 (by decide)
      · rcases mem_attrMsgs.mp h with ⟨-, h2⟩ | ⟨hne, -, -⟩ | ⟨hne, -, -⟩
        · exact absurd h2 (by decide)
        · exact hne hattrs
        · exact hne hattrs
      · exact absurd ((retPart_inv hr).1 _ h) (by decide)
      · exact absurd ((argsCheck_inv ha).1 _ h) (by decide)
    · intro hm
      rcases mem_ruleMsgs.mp hm with h|h|h|h|h|h|h|h|h|h|h
      · exact absurd (mem_abiMsgs.mp h).2 (by decide)
      · exact absurd (mem_constMsgs.mp h).2 (by decide)
      · exact absurd (mem_asyncMsgs.mp h).2 (by decide)
      · exact absurd (mem_unsafetyMsgs.mp h).2 (by decide)
      · exact absurd (mem_variadicMsgs.mp h).2 (by decide)
      · exact absurd (mem_genericMsgs.mp h).2 (by decide)
      · exact absurd (mem_lifetimeMsgs.mp h).2 (by decide)
      · exact absurd (mem_constParamMsgs.mp h).2 (by decide)
      · rcases mem_attrMsgs.mp h with ⟨-, h2⟩ | ⟨hne, -, -⟩ | ⟨hne, -, -⟩
        · exact absurd h2 (by decide)
        · exact hne hattrs
        · exact hne hattrs
      · exact absurd ((retPart_inv hr).1 _ h) (by decide)
      · exact absurd ((argsCheck_inv ha).1 _ h) (by decide)
  · intro hne hc
    exact mem_ruleMsgs.mpr (Or.inr (Or.inr (Or.inr (Or.inr (Or.inr (Or.inr (Or.inr
      (Or.inr (Or.inl (mem_attrMsgs.mpr (Or.inr (Or.inl ⟨hne, hc, rfl⟩))))))))))))
  · intro hne hc
    exact mem_ruleMsgs.mpr (Or.inr (Or.inr (Or.inr (Or.inr (Or.inr (Or.inr (Or.inr
      (Or.inr (Or.inl (mem_attrMsgs.mpr (Or.inr (Or.inr ⟨hne, hc, rfl⟩))))))))))))
  · intro t hout hval
    exact mem_ruleMsgs.mpr (Or.inr (Or.inr (Or.inr (Or.inr (Or.inr (Or.inr (Or.inr
      (Or.inr (Or.inr (Or.inl ((retPart_inv hr).2.2 t hout hval)))))))))))
  · intro a hmem hbad
    exact mem_ruleMsgs.mpr (Or.inr (Or.inr (Or.inr (Or.inr (Or.inr (Or.inr (Or.inr
      (Or.inr (Or.inr (Or.inr ((argsCheck_inv ha).2.2 a hmem hbad)))))))))))

/-- C4, witness: the amended theorem applied to `multiFailFn`, whose run
records all eleven diagnostics at once; the const conjunct is concluded. -/
theorem c4_witness :
    msgIsConst ∈ [msgNotExternC, msgIsConst, msgIsAsync, msgUnsafety, msgVariadic,
      msgGenericParams, msgLifetimeParams, msgConstParams, msgMissingBoth,
      msgBadRet, msgBadArg] :=
  (c4_rules_not_short_circuited multiFailFn none none
    [msgNotExternC, msgIsConst, msgIsAsync, msgUnsafety, msgVariadic,
      msgGenericParams, msgLifetimeParams, msgConstParams, msgMissingBoth,
      msgBadRet, msgBadArg] rfl rfl).2.1 rfl

end Glibm

namespace Glibm

/-- C5, counterexample to the claim as stated: the catalog is not "exactly
the candidates that passed every rule" - `roundUnsafeFn` fails the unsafe
rule (its error is recorded) yet its entry is in the catalog, because the
unsafe rule does not set the exclusion flag. -/
theorem c5_counterexample :
    get_functions [Item.fn roundUnsafeFn] none =
      some ([goodSig "round" "Round"], [("round", msgUnsafety)]) := rfl

/-- C5 (amended): validation errors never suppress the catalog.  Runs
compose: the result over a concatenation of item lists is the concatenation
of the per-part catalogs and of the per-part error lists, so errors recorded
for some candidates neither remove nor alter any passing candidate's entry,
and never halt catalog generation; the catalog holds exactly the candidates
whose exclusion flag stayed unset (every rule except the inert unsafe one). -/
theorem c5_errors_never_suppress_catalog (xs ys : List Item) (ign : Option (List String))
    (f1 f2 : List FnSig) (e1 e2 : List (String × String))
    (hx : get_functions xs ign = some (f1, e1))
    (hy : get_functions ys ign = some (f2, e2)) :
    get_functions (xs ++ ys) ign = some (f1 ++ f2, e1 ++ e2) := by
  induction xs generalizing f1 e1 with
  | nil =>
    simp [get_functions] at hx
    obtain ⟨h1, h2⟩ := hx
    subst h1
    subst h2
    simpa using hy
  | cons it rest ih =>
    rw [get_functions_cons] at hx
    split at hx
    · rename_i r rs hr hrs
      simp at hx
      obtain ⟨h1, h2⟩ := hx
      rw [List.cons_append, get_functions_cons, hr, ih rs.1 rs.2 hrs]
      simp [← h1, ← h2, List.append_assoc]
    · exact absurd hx (by simp)

/-- C5, witness: a passing `exp` candidate followed by an erroring `ln`
candidate (empty attribute list): the catalog keeps the `exp` entry intact
and the `ln` errors are reported, with no halt. -/
theorem c5_witness :
    get_functions ([Item.fn (goodFn "exp")] ++ [Item.fn lnNoAttrFn]) none =
      some ([goodSig "exp" "Exp"] ++ [], [] ++ [("ln", msgMissingBoth)]) :=
  c5_errors_never_suppress_catalog [Item.fn (goodFn "exp")] [Item.fn lnNoAttrFn]
    none [goodSig "exp" "Exp"] [] [] [("ln", msgMissingBoth)] rfl rfl

/-- C6: the categorizer maps a non-empty identifier to the identifier with
its first character uppercased and the remaining characters unchanged, and
it is pure - the same identifier always yields the same tag. -/
theorem c6_categorizer_uppercases_first (c : Char) (rest : List Char) :
    to_api_kind (String.mk (c :: rest)) = some (String.mk (c.toUpper :: rest)) ∧
    to_api_kind (String.mk (c :: rest)) = to_api_kind (String.mk (c :: rest)) := by
  refine ⟨?_, rfl⟩
  simp [to_api_kind, replacen1]

/-- C7, counterexample to the claim as stated: an empty identifier reaching
the categorizer does not produce a non-fatal InvalidIdentifier error - the
whole run aborts (the `unwrap` at lib.rs line 320 panics, before the ignore
check), producing neither a catalog nor an error list. -/
theorem c7_counterexample : get_functions [Item.fn (goodFn "")] none = none := rfl

/-- C7 (amended): a public candidate whose identifier is empty makes the
whole run panic: `get_functions` yields no catalog and no error list at all,
whatever the ignore set and whatever else the item list holds. -/
theorem c7_empty_ident_aborts (f : ItemFn) (ign : Option (List String))
    (items : List Item) (h : f.ident = "") (hv : f.vis = Visibility.pub)
    (hm : Item.fn f ∈ items) : get_functions items ign = none := by
  induction items with
  | nil => simp at hm
  | cons it rest ih =>
    rw [get_functions_cons]
    rcases List.mem_cons.mp hm with hm1 | hm2
    · have hp : processItem ign (Item.fn f) = none := by
        unfold processItem
        dsimp only
        rw [hv]
        have hpf : processFn f ign = none := by
          unfold processFn
          rw [h]
          rfl
        rw [hpf]
      rw [← hm1, hp]
    · rw [ih hm2]
      cases processItem ign it <;> rfl

/-- C7, witness: the amended theorem applied to a concrete empty-identifier
candidate under a non-empty ignore set. -/
theorem c7_witness : get_functions [Item.fn (goodFn "")] (some ["x"]) = none :=
  c7_empty_ident_aborts (goodFn "") (some ["x"]) [Item.fn (goodFn "")] rfl rfl
    (List.mem_singleton.mpr rfl)

/-- C8: an identifier in the caller-supplied ignore set never appears in the
emitted catalog, and - the candidate being dropped before validation - no
validation error is recorded under that identifier either. -/
theorem c8_ignored_absent (items : List Item) (ignSet : List String)
    (fns : List FnSig) (errs : List (String × String))
    (h : get_functions items (some ignSet) = some (fns, errs))
    (name : String) (hn : name ∈ ignSet) :
    (∀ sg ∈ fns, sg.ident ≠ name) ∧ (∀ p ∈ errs, p.1 ≠ name) := by
  have hname : ignoredHas (some ignSet) name = true := by
    show List.contains ignSet name = true
    exact List.elem_iff.mpr hn
  induction items generalizing fns errs with
  | nil =>
    simp [get_functions] at h
    obtain ⟨h1, h2⟩ := h
    subst h1
    subst h2
    simp
  | cons it rest ih =>
    rw [get_functions_cons] at h
    split at h
    · rename_i r rs hr hrs
      simp at h
      obtain ⟨h1, h2⟩ := h
      have hit := processItem_ne hr name hname
      have hrest := ih rs.1 rs.2 hrs
      constructor
      · intro sg hsg
        rw [← h1] at hsg
        rcases List.mem_append.mp hsg with hmem | hmem
        · exact hit.1 sg hmem
        · exact hrest.1 sg hmem
      · intro p hpm
        rw [← h2] at hpm
        rcases List.mem_append.mp hpm with hmem | hmem
        · exact hit.2 p hmem
        · exact hrest.2 p hmem
    · exact absurd h (by simp)

/-- C8, witness: with ignore set containing "jnf", a run over a passing
"jnf" candidate and a passing "tan" candidate catalogs only "tan"; the
theorem concludes that the surviving entry's identifier is not "jnf". -/
theorem c8_witness : (goodSig "tan" "Tan").ident ≠ "jnf" :=
  (c8_ignored_absent [Item.fn (goodFn "jnf"), Item.fn (goodFn "tan")] ["jnf"]
    [goodSig "tan" "Tan"] [] rfl "jnf" (List.mem_singleton.mpr rfl)).1
    (goodSig "tan" "Tan") (List.mem_singleton.mpr rfl)

/-- C9: the emitter is an order-preserving one-record-per-signature map -
the output has the input's length, the record at every position carries that
position's identifier, category tag, argument types and optional return type
verbatim, and the synthesized names are exactly `x0`, `x1`, ... matching the
argument count and positions. -/
theorem c9_emitter_exact (fns : List FnSig) :
    (for_each_api_records fns).length = fns.length ∧
    (∀ i : Nat, (for_each_api_records fns).get? i = (fns.get? i).map
      (fun f => ApiRecord.mk f.ident f.api_kind f.arg_tys
        (get_arg_ids f.arg_tys.length) f.ret_ty)) ∧
    (∀ n : Nat, (get_arg_ids n).length = n) ∧
    (∀ n j : Nat, (get_arg_ids n).get? j =
      if j < n then some ("x" ++ toString j) else none) := by
  refine ⟨?_, ?_, ?_, ?_⟩
  · simp [for_each_api_records]
  · intro i
    simp [for_each_api_records, List.get?_map]
  · intro n
    simp [get_arg_ids]
  · intro n j
    by_cases hj : j < n
    · simp [get_arg_ids, List.get?_map, List.get?_range hj, hj]
    · have hlen : (get_arg_ids n).length ≤ j := by
        simp [get_arg_ids]
        omega
      rw [List.get?_eq_none.mpr hlen]
      simp [hj]

/-- C10: the ignore configuration string is split on commas only, with no
trimming - a piece written with a leading space keeps it, so " jnf" does not
match the identifier "jnf" - and the empty configuration string yields the
ignore set containing only the empty string, which ignores no function: a
run with it equals a run with no ignore set at all. -/
theorem c10_ignore_split_no_trim :
    parse_ignored "" = [""] ∧
    (" jnf" ∈ parse_ignored " jnf,cos" ∧ "jnf" ∉ parse_ignored " jnf,cos") ∧
    ∀ items : List Item, get_functions items (some (parse_ignored "")) =
      get_functions items none := by
  refine ⟨rfl, by decide, ?_⟩
  intro items
  induction items with
  | nil => rfl
  | cons it rest ih =>
    rw [get_functions_cons, get_functions_cons, ih, processItem_empty_ignore]

end Glibm
